import Mathlib

/-!
Shallow embedding of `birdhouse_training.py`, a calculator that plans how
many birdhouse trips (and logs) a player needs to reach a target Hunter
level.  Python integers are modelled by `ℤ`, experience values (which may
become fractional after the Leagues multiplier is applied) by `ℚ`, and the
two JSON-backed dictionaries by association lists kept in insertion order,
mirroring Python's dict iteration order.  Dictionary subscription, which can
raise `KeyError`, is modelled by `Option`-valued lookup, and the `while`
loop of `calc_trips_to_target` by a fuel-indexed recursion whose `none`
result means the loop did not complete normally within the given fuel.
-/

/-- One value of the birdhouse dictionary: `{"Hunter Level": …, "Hunter XP": …}`. -/
structure TierInfo where
  hunterLevel : ℤ
  hunterXP : ℚ
  deriving DecidableEq, Repr

/-- The `levels` dictionary: level keys paired with experience thresholds,
in insertion order. -/
abbrev LevelTable := List (ℤ × ℚ)

/-- The `birdhouses` dictionary: tier names paired with tier data,
in insertion order. -/
abbrev TierTable := List (String × TierInfo)

/-- One entry of the returned plan: `{f"{log_tier} logs": logs_needed}`. -/
abbrev PlanStep := String × ℤ

/-- Python `levels[l]`: `none` models a `KeyError`. -/
def levelLookup (levels : LevelTable) (l : ℤ) : Option ℚ :=
  (levels.find? (fun p => decide (p.1 = l))).map Prod.snd

/-- Python `birdhouses[name]`: `none` models a `KeyError`. -/
def tierLookup (bh : TierTable) (name : String) : Option TierInfo :=
  (bh.find? (fun p => decide (p.1 = name))).map Prod.snd

/-- Python `max(levels.keys())` (the empty case, where Python raises, is
given the junk value 0; the level table is never empty). -/
def maxKey : LevelTable → ℤ
  | [] => 0
  | p :: rest => rest.foldl (fun m q => max m q.1) p.1

/-- The scan inside `check_level`: the first `level - 1` whose threshold
exceeds the experience, `none` when the experience reaches every threshold. -/
def checkLevelAux (x : ℚ) : LevelTable → Option ℤ
  | [] => none
  | (level, experience) :: rest =>
    if x < experience then some (level - 1) else checkLevelAux x rest

/-- Function `check_level` (lines 19-33): scan the level table in insertion order and
return `level - 1` at the first threshold exceeding the experience, falling
back to `max(levels.keys())`. -/
def check_level (levels : LevelTable) (x : ℚ) : ℤ :=
  (checkLevelAux x levels).getD (maxKey levels)

/-- The scan inside `check_birdhouse_tier`, with the running `current_tier`. -/
def checkTierAux (lvl : ℤ) (cur : String) : TierTable → String × Option String
  | [] => (cur, none)
  | (tier, info) :: rest =>
    if lvl < info.hunterLevel then (cur, some tier) else checkTierAux lvl tier rest

/-- Function `check_birdhouse_tier` (lines 36-52): current tier (initially the string
sentinel `"None"`) and next tier (`none` models Python's `None`). -/
def check_birdhouse_tier (lvl : ℤ) (bh : TierTable) : String × Option String :=
  checkTierAux lvl "None" bh

/-- Lines 126-129 of `calc_trips_to_target`: the benchmark for the current
iteration, given the `next_tier` component returned by
`check_birdhouse_tier`.  `none` models a `KeyError` in `levels[...]` or
`birdhouses[next_tier]`. -/
def nextBenchmark (levels : LevelTable) (bh : TierTable) (target : ℤ) :
    Option String → Option ℚ
  | none => levelLookup levels target
  | some nt =>
    match tierLookup bh nt with
    | none => none
    | some info =>
      if target < info.hunterLevel then levelLookup levels target
      else levelLookup levels info.hunterLevel

/-- Function `format_logs` (lines 88-103): `birdhouse_tier.split(" ")[0]` — the part
of the tier name before the first space (expressed as `takeWhile` on the
characters, which agrees with element 0 of the split) — suffixed with
`" logs"`, paired with the log count. -/
def format_logs (birdhouse_tier : String) (logs_needed : ℤ) : PlanStep :=
  (String.mk (birdhouse_tier.toList.takeWhile (fun c => c ≠ ' ')) ++ " logs",
   logs_needed)

/-- One iteration of the `while` loop of `calc_trips_to_target`
(lines 122-142), entered with `current_xp`; returns the updated experience
and the appended plan step, or `none` on a `KeyError`.  (`current_level` at
the loop head always equals `check_level` of the current experience, so it
is recomputed here instead of threaded through.) -/
def loopBody (levels : LevelTable) (bh : TierTable) (target : ℤ) (xp : ℚ) :
    Option (ℚ × PlanStep) :=
  let ct := check_birdhouse_tier (check_level levels xp) bh
  match nextBenchmark levels bh target ct.2 with
  | none => none
  | some nb =>
    match tierLookup bh ct.1 with
    | none => none
    | some info =>
      let birdhouse_xp := info.hunterXP * 4
      let trips : ℤ := ⌈(nb - xp) / birdhouse_xp⌉
      some (xp + trips * birdhouse_xp, format_logs ct.1 (trips * 4))

/-- The `while` loop of `calc_trips_to_target`, with an explicit fuel bound
on the number of iterations and the accumulated plan (kept reversed). -/
def calcTripsAux (levels : LevelTable) (bh : TierTable) (target : ℤ) :
    ℕ → ℚ → List PlanStep → Option (List PlanStep)
  | 0, xp, acc =>
    if check_level levels xp < target then none else some acc.reverse
  | fuel + 1, xp, acc =>
    if check_level levels xp < target then
      match loopBody levels bh target xp with
      | some s => calcTripsAux levels bh target fuel s.1 (s.2 :: acc)
      | none => none
    else some acc.reverse

/-- Function `calc_trips_to_target` (lines 106-144): the full training path, `none`
when a `KeyError` occurs or the fuel does not cover every loop iteration. -/
def calc_trips_to_target (levels : LevelTable) (bh : TierTable) (xp : ℚ)
    (target : ℤ) (fuel : ℕ) : Option (List PlanStep) :=
  calcTripsAux levels bh target fuel xp []

/-- Function `calc_trips_to_next_benchmark` (lines 55-85): trips, logs and resulting
experience toward the target level, `none` on a `KeyError`. -/
def calc_trips_to_next_benchmark (levels : LevelTable) (bh : TierTable)
    (xp : ℚ) (target : ℤ) : Option (ℤ × ℤ × ℚ) :=
  match levelLookup levels target with
  | none => none
  | some tt =>
    let xp_to_target := tt - xp
    let current_level := check_level levels xp
    let birdhouse_tier := (check_birdhouse_tier current_level bh).1
    match tierLookup bh birdhouse_tier with
    | none => none
    | some info =>
      let trip_xp := info.hunterXP * 4
      let total_trips : ℤ := ⌈xp_to_target / trip_xp⌉
      some (total_trips, total_trips * 4, total_trips * trip_xp + xp)

/-- The sequence of `current_xp` values of the stepper: `runLoop n xp` is
the experience after `n` executed iterations of the loop of
`calc_trips_to_target` starting from `xp`, and `none` when fewer than `n`
iterations happen (loop exit or `KeyError`). -/
def runLoop (levels : LevelTable) (bh : TierTable) (target : ℤ) :
    ℕ → ℚ → Option ℚ
  | 0, xp => some xp
  | n + 1, xp =>
    if check_level levels xp < target then
      match loopBody levels bh target xp with
      | some s => runLoop levels bh target n s.1
      | none => none
    else none

/-- The dict comprehension of `main` (lines 228-229): scale the
`"Hunter XP"` value of every tier by the multiplier, leaving every other
field unchanged. -/
def effectiveTable (base : TierTable) (mult : ℚ) : TierTable :=
  base.map (fun p =>
    (p.1, { hunterLevel := p.2.hunterLevel, hunterXP := p.2.hunterXP * mult }))

/-- The branch of `main` (lines 224-231) choosing between the scaled table
(Leagues) and the base table. -/
def selectBirdhouses (base : TierTable) (leagues : Bool) (mult : ℚ) :
    TierTable :=
  if leagues then effectiveTable base mult else base

/-- Outcome of `get_inputs`: a `KeyError` crash, the `(None, None)` sentinel,
or the accepted pair. -/
inductive InputResult
  | keyError
  | noInput
  | ok (xp : ℤ) (target : ℤ)
  deriving DecidableEq, Repr

/-- The validation logic of `get_inputs` (lines 154-171) on already-parsed
integers: abort with `(None, None)` when experience is below the level-5
threshold or strictly exceeds the target level's threshold, otherwise accept. -/
def get_inputs (levels : LevelTable) (experience : ℤ) (target_level : ℤ) :
    InputResult :=
  match levelLookup levels 5 with
  | none => InputResult.keyError
  | some t5 =>
    if (experience : ℚ) < t5 then InputResult.noInput
    else
      match levelLookup levels target_level with
      | none => InputResult.keyError
      | some tt =>
        if tt < (experience : ℚ) then InputResult.noInput
        else InputResult.ok experience target_level

/-- The plan-computing tail of `main` (lines 232-233): a plan is computed
only when `get_inputs` accepted, and `if end_level:` also rejects a zero
target (Python falsiness). -/
def main_plan (levels : LevelTable) (bh : TierTable) (r : InputResult)
    (fuel : ℕ) : Option (List PlanStep) :=
  match r with
  | InputResult.ok xp target =>
    if target = 0 then none
    else calc_trips_to_target levels bh (xp : ℚ) target fuel
  | _ => none

/-- Spec invariant on the level table (§3 LevelTable): keys consecutive in
insertion order, thresholds strictly increasing. -/
def LevelsWF (levels : LevelTable) : Prop :=
  List.Chain' (fun p q => q.1 = p.1 + 1 ∧ p.2 < q.2) levels

/-- Spec invariant on the tier table (§3 TierTable): unlock levels strictly
increasing with tier order. -/
def TiersSorted (bh : TierTable) : Prop :=
  List.Chain' (fun p q => p.2.hunterLevel < q.2.hunterLevel) bh

/-- Number of tiers whose unlock level lies strictly above `lvl` and at most
`target`: the quantity bounding the stepper's iteration count. -/
def tiersBetween (bh : TierTable) (lvl target : ℤ) : ℕ :=
  bh.countP (fun p => decide (lvl < p.2.hunterLevel) && decide (p.2.hunterLevel ≤ target))

/-- Concrete level table used for witnesses (real thresholds for levels
1-10). -/
def sampleLevels : LevelTable :=
  [(1, 0), (2, 83), (3, 174), (4, 276), (5, 388),
   (6, 512), (7, 650), (8, 801), (9, 969), (10, 1154)]

/-- Concrete tier table used for witnesses. -/
def sampleTiers : TierTable :=
  [("Regular birdhouse", ⟨5, 280⟩), ("Oak birdhouse", ⟨9, 420⟩)]

/-- Level table of the end-to-end example of the spec (§8). -/
def exampleLevels : LevelTable := [(5, 388), (10, 1154)]

/-- Tier table of the end-to-end example of the spec (§8). -/
def exampleTiers : TierTable := [("Regular birdhouse", ⟨5, 280⟩)]

/-! ### Helper lemmas on the lookups -/

theorem levelLookup_mem {levels : LevelTable} {l : ℤ} {t : ℚ}
    (h : levelLookup levels l = some t) : (l, t) ∈ levels := by
  unfold levelLookup at h
  cases hf : levels.find? (fun p => decide (p.1 = l)) with
  | none => rw [hf] at h; simp at h
  | some pr =>
    rw [hf] at h
    simp only [Option.map_some', Option.some.injEq] at h
    have hm := List.mem_of_find?_eq_some hf
    have hp := List.find?_some hf
    simp only [decide_eq_true_eq] at hp
    have hpr : pr = (l, t) := by rw [← hp, ← h]
    exact hpr ▸ hm

theorem tierLookup_mem {bh : TierTable} {name : String} {info : TierInfo}
    (h : tierLookup bh name = some info) : (name, info) ∈ bh := by
  unfold tierLookup at h
  cases hf : bh.find? (fun p => decide (p.1 = name)) with
  | none => rw [hf] at h; simp at h
  | some pr =>
    rw [hf] at h
    simp only [Option.map_some', Option.some.injEq] at h
    have hm := List.mem_of_find?_eq_some hf
    have hp := List.find?_some hf
    simp only [decide_eq_true_eq] at hp
    have hpr : pr = (name, info) := by rw [← hp, ← h]
    exact hpr ▸ hm

theorem tierLookup_isSome_of_mem {bh : TierTable} {name : String}
    (h : name ∈ bh.map Prod.fst) : (tierLookup bh name).isSome := by
  rcases List.mem_map.mp h with ⟨p, hp, hpn⟩
  have hf : (bh.find? (fun q => decide (q.1 = name))).isSome :=
    List.find?_isSome.mpr ⟨p, hp, by simp [hpn]⟩
  unfold tierLookup
  cases hfe : bh.find? (fun q => decide (q.1 = name)) with
  | none => rw [hfe] at hf; simp at hf
  | some pr => simp

theorem tierLookup_of_nodup {bh : TierTable} (hN : (bh.map Prod.fst).Nodup)
    {name : String} {info : TierInfo} (h : (name, info) ∈ bh) :
    tierLookup bh name = some info := by
  induction bh with
  | nil => simp at h
  | cons a rest ih =>
    rw [List.map_cons, List.nodup_cons] at hN
    rcases List.mem_cons.mp h with h | h
    · rw [← h]
      unfold tierLookup
      rw [List.find?_cons_of_pos _ (by simp)]
      simp
    · have han : a.1 ≠ name := by
        intro he
        exact hN.1 (he ▸ List.mem_map.mpr ⟨(name, info), h, rfl⟩)
      unfold tierLookup
      rw [List.find?_cons_of_neg _ (by simp [han])]
      exact ih hN.2 h

/-! ### Helper lemmas on `maxKey` -/

theorem le_foldlMax : ∀ (l : LevelTable) (a : ℤ),
    a ≤ l.foldl (fun m q => max m q.1) a := by
  intro l
  induction l with
  | nil => simp
  | cons p rest ih =>
    intro a
    simp only [List.foldl_cons]
    exact le_trans (le_max_left _ _) (ih (max a p.1))

theorem foldlMax_max : ∀ (l : LevelTable) (a b : ℤ),
    l.foldl (fun m q => max m q.1) (max a b) =
      max a (l.foldl (fun m q => max m q.1) b) := by
  intro l
  induction l with
  | nil => simp
  | cons p rest ih =>
    intro a b
    simp only [List.foldl_cons]
    rw [max_assoc, ih]

theorem maxKey_cons {p : ℤ × ℚ} {rest : LevelTable} (h : rest ≠ []) :
    maxKey (p :: rest) = max p.1 (maxKey rest) := by
  cases rest with
  | nil => exact absurd rfl h
  | cons q rs =>
    show (q :: rs).foldl (fun m r => max m r.1) p.1 = max p.1 (maxKey (q :: rs))
    simp only [List.foldl_cons]
    exact foldlMax_max rs p.1 q.1

/-! ### Sortedness consequences of the table invariants -/

theorem levelsWF_pairwise {levels : LevelTable} (h : LevelsWF levels) :
    levels.Pairwise (fun p q => p.1 < q.1 ∧ p.2 < q.2) := by
  have h2 : List.Chain' (fun p q : ℤ × ℚ => p.1 < q.1 ∧ p.2 < q.2) levels :=
    List.Chain'.imp (fun a b hab => ⟨by omega, hab.2⟩) h
  haveI : IsTrans (ℤ × ℚ) (fun p q => p.1 < q.1 ∧ p.2 < q.2) :=
    ⟨fun a b c hab hbc => ⟨lt_trans hab.1 hbc.1, lt_trans hab.2 hbc.2⟩⟩
  exact List.chain'_iff_pairwise.mp h2

theorem tiersSorted_pairwise {bh : TierTable} (h : TiersSorted bh) :
    bh.Pairwise (fun p q => p.2.hunterLevel < q.2.hunterLevel) := by
  haveI : IsTrans (String × TierInfo)
      (fun p q => p.2.hunterLevel < q.2.hunterLevel) :=
    ⟨fun a b c hab hbc => lt_trans hab hbc⟩
  exact List.chain'_iff_pairwise.mp h

/-! ### Characterization of `check_level` -/

theorem check_level_cons {a : ℤ × ℚ} {rest : LevelTable} (x : ℚ)
    (hpw : (a :: rest).Pairwise (fun p q => p.1 < q.1 ∧ p.2 < q.2))
    (hne : rest ≠ []) :
    check_level (a :: rest) x = if x < a.2 then a.1 - 1 else check_level rest x := by
  obtain ⟨a1, a2⟩ := a
  unfold check_level
  by_cases hx : x < a2
  · simp [checkLevelAux, hx]
  · simp only [checkLevelAux, hx, if_neg, if_false]
    cases haux : checkLevelAux x rest with
    | some v => simp
    | none =>
      simp only [Option.getD_none]
      rw [maxKey_cons hne]
      cases rest with
      | nil => exact absurd rfl hne
      | cons b rs =>
        have hab : a1 < b.1 := ((List.pairwise_cons.mp hpw).1 b (by simp)).1
        have hb : b.1 ≤ maxKey (b :: rs) := le_foldlMax rs b.1
        exact max_eq_right (le_of_lt (lt_of_lt_of_le hab hb))

theorem check_level_head_bound :
    ∀ {a : ℤ × ℚ} {rest : LevelTable}, LevelsWF (a :: rest) → ∀ x : ℚ,
      a.1 - 1 ≤ check_level (a :: rest) x := by
  intro a rest
  induction rest generalizing a with
  | nil =>
    intro _ x
    obtain ⟨a1, a2⟩ := a
    unfold check_level maxKey
    by_cases hx : x < a2 <;> simp [checkLevelAux, hx]
  | cons b rs ih =>
    intro hW x
    rw [check_level_cons x (levelsWF_pairwise hW) (by simp)]
    by_cases hx : x < a.2
    · simp [hx]
    · rw [if_neg hx]
      have hb : b.1 = a.1 + 1 := (List.chain'_cons.mp hW).1.1
      have := ih hW.tail x
      omega

theorem le_check_level :
    ∀ (levels : LevelTable), LevelsWF levels → ∀ (l : ℤ) (t x : ℚ),
      levelLookup levels l = some t → t ≤ x → l ≤ check_level levels x := by
  intro levels
  induction levels with
  | nil => intro _ l t x hl _; simp [levelLookup] at hl
  | cons a rest ih =>
    intro hW l t x hl hx
    by_cases hal : a.1 = l
    · unfold levelLookup at hl
      rw [List.find?_cons_of_pos _ (by simp [hal])] at hl
      simp only [Option.map_some', Option.some.injEq] at hl
      have hxa : ¬ x < a.2 := not_lt.mpr (hl ▸ hx)
      cases rest with
      | nil =>
        obtain ⟨a1, a2⟩ := a
        have hxa2 : ¬ x < a2 := hxa
        have hal2 : a1 = l := hal
        unfold check_level maxKey
        simp [checkLevelAux, hxa2, hal2]
      | cons b rs =>
        rw [check_level_cons x (levelsWF_pairwise hW) (by simp), if_neg hxa]
        have hb : b.1 = a.1 + 1 := (List.chain'_cons.mp hW).1.1
        have := check_level_head_bound hW.tail x
        omega
    · unfold levelLookup at hl
      rw [List.find?_cons_of_neg _ (by simp [hal])] at hl
      have hlr : levelLookup rest l = some t := hl
      have hmem := levelLookup_mem hlr
      cases rest with
      | nil => simp at hmem
      | cons b rs =>
        rw [check_level_cons x (levelsWF_pairwise hW) (by simp)]
        by_cases hxa : x < a.2
        · have hrel := (List.pairwise_cons.mp (levelsWF_pairwise hW)).1 (l, t) hmem
          have : a.2 < x := lt_of_lt_of_le hrel.2 hx
          exact absurd hxa (not_lt.mpr (le_of_lt this))
        · rw [if_neg hxa]
          exact ih hW.tail l t x hlr hx

theorem check_level_lt :
    ∀ (levels : LevelTable), LevelsWF levels → ∀ (l : ℤ) (t x : ℚ),
      levelLookup levels l = some t → x < t → check_level levels x < l := by
  intro levels
  induction levels with
  | nil => intro _ l t x hl _; simp [levelLookup] at hl
  | cons a rest ih =>
    intro hW l t x hl hx
    by_cases hal : a.1 = l
    · unfold levelLookup at hl
      rw [List.find?_cons_of_pos _ (by simp [hal])] at hl
      simp only [Option.map_some', Option.some.injEq] at hl
      have hxa : x < a.2 := hl ▸ hx
      obtain ⟨a1, a2⟩ := a
      have hxa2 : x < a2 := hxa
      have hal2 : a1 = l := hal
      unfold check_level
      simp [checkLevelAux, hxa2, hal2]
    · unfold levelLookup at hl
      rw [List.find?_cons_of_neg _ (by simp [hal])] at hl
      have hlr : levelLookup rest l = some t := hl
      have hmem := levelLookup_mem hlr
      cases rest with
      | nil => simp at hmem
      | cons b rs =>
        have hrel := (List.pairwise_cons.mp (levelsWF_pairwise hW)).1 (l, t) hmem
        rw [check_level_cons x (levelsWF_pairwise hW) (by simp)]
        by_cases hxa : x < a.2
        · rw [if_pos hxa]; omega
        · rw [if_neg hxa]
          exact ih hW.tail l t x hlr hx

theorem checkLevelAux_eq_none {x : ℚ} :
    ∀ {levels : LevelTable},
      checkLevelAux x levels = none ↔ ∀ p ∈ levels, p.2 ≤ x := by
  intro levels
  induction levels with
  | nil => simp [checkLevelAux]
  | cons a rest ih =>
    obtain ⟨a1, a2⟩ := a
    unfold checkLevelAux
    by_cases hx : x < a2
    · simp only [hx, if_pos]
      constructor
      · intro h; exact absurd h (by simp)
      · intro h
        have h2 : a2 ≤ x := h (a1, a2) (by simp)
        exact absurd hx (not_lt.mpr h2)
    · simp only [hx, if_neg, if_false]
      rw [ih]
      constructor
      · intro h p hp
        rcases List.mem_cons.mp hp with hp | hp
        · rw [hp]; exact not_lt.mp hx
        · exact h p hp
      · intro h p hp
        exact h p (List.mem_cons_of_mem _ hp)

theorem thresholds_le_getLast :
    ∀ (levels : LevelTable) (hne : levels ≠ []),
      levels.Pairwise (fun p q => p.1 < q.1 ∧ p.2 < q.2) →
      ∀ p ∈ levels, p.2 ≤ (levels.getLast hne).2 := by
  intro levels
  induction levels with
  | nil => intro hne; exact absurd rfl hne
  | cons a rest ih =>
    intro hne hpw p hp
    cases rest with
    | nil =>
      rcases List.mem_cons.mp hp with hp | hp
      · rw [hp]; simp [List.getLast]
      · simp at hp
    | cons b rs =>
      rw [List.getLast_cons (by simp)]
      rcases List.mem_cons.mp hp with hp | hp
      · rw [hp]
        have hlast : (b :: rs).getLast (by simp) ∈ b :: rs := List.getLast_mem _
        exact le_of_lt ((List.pairwise_cons.mp hpw).1 _ hlast).2
      · exact ih (by simp) (List.pairwise_cons.mp hpw).2 p hp

theorem check_level_eq_maxKey {levels : LevelTable} (hW : LevelsWF levels)
    (hne : levels ≠ []) (x : ℚ) (hx : (levels.getLast hne).2 ≤ x) :
    check_level levels x = maxKey levels := by
  have haux : checkLevelAux x levels = none :=
    checkLevelAux_eq_none.mpr
      (fun p hp =>
        le_trans (thresholds_le_getLast levels hne (levelsWF_pairwise hW) p hp) hx)
  unfold check_level
  rw [haux]
  rfl

/-! ### Characterization of `check_birdhouse_tier` -/

theorem checkTierAux_next_spec {lvl : ℤ} {nt : String} :
    ∀ (bh : TierTable) (cur : String),
      (checkTierAux lvl cur bh).2 = some nt →
      ∃ info, (nt, info) ∈ bh ∧ lvl < info.hunterLevel := by
  intro bh
  induction bh with
  | nil => intro cur h; simp [checkTierAux] at h
  | cons a rest ih =>
    intro cur h
    obtain ⟨a1, a2⟩ := a
    by_cases ha : lvl < a2.hunterLevel
    · simp only [checkTierAux, ha, if_pos] at h
      have h2 : a1 = nt := by injection h
      exact ⟨a2, by rw [← h2]; exact List.mem_cons_self _ _, ha⟩
    · simp only [checkTierAux, ha, if_neg, if_false] at h
      rcases ih a1 h with ⟨info, hmem, hlt⟩
      exact ⟨info, List.mem_cons_of_mem _ hmem, hlt⟩

theorem checkTierAux_fst_mem {lvl : ℤ} :
    ∀ (bh : TierTable) (cur : String) (S : List String), cur ∈ S →
      (∀ p ∈ bh, p.1 ∈ S) → (checkTierAux lvl cur bh).1 ∈ S := by
  intro bh
  induction bh with
  | nil => intro cur S hc _; exact hc
  | cons a rest ih =>
    intro cur S hc hall
    obtain ⟨a1, a2⟩ := a
    by_cases ha : lvl < a2.hunterLevel
    · simp only [checkTierAux, ha, if_pos]
      exact hc
    · simp only [checkTierAux, ha, if_neg, if_false]
      exact ih a1 S (hall (a1, a2) (by simp))
        (fun p hp => hall p (List.mem_cons_of_mem _ hp))

theorem check_birdhouse_tier_fst_mem {lvl : ℤ} {a : String × TierInfo}
    {rest : TierTable} (hle : a.2.hunterLevel ≤ lvl) :
    (check_birdhouse_tier lvl (a :: rest)).1 ∈ (a :: rest).map Prod.fst := by
  obtain ⟨a1, a2⟩ := a
  have hna : ¬ lvl < a2.hunterLevel := not_lt.mpr hle
  unfold check_birdhouse_tier
  simp only [checkTierAux, hna, if_neg, if_false]
  exact checkTierAux_fst_mem rest a1 _ (by simp)
    (fun p hp => by
      simp only [List.map_cons]
      exact List.mem_cons_of_mem _ (List.mem_map.mpr ⟨p, hp, rfl⟩))

theorem checkTierAux_head_lt {lvl : ℤ} {a : String × TierInfo}
    {rest : TierTable} (cur : String) (h : lvl < a.2.hunterLevel) :
    checkTierAux lvl cur (a :: rest) = (cur, some a.1) := by
  obtain ⟨a1, a2⟩ := a
  simp [checkTierAux, h]

theorem checkTierAux_last {lvl : ℤ} :
    ∀ (bh : TierTable) (hne : bh ≠ []) (cur : String),
      bh.Pairwise (fun p q => p.2.hunterLevel < q.2.hunterLevel) →
      (bh.getLast hne).2.hunterLevel ≤ lvl →
      checkTierAux lvl cur bh = ((bh.getLast hne).1, none) := by
  intro bh
  induction bh with
  | nil => intro hne; exact absurd rfl hne
  | cons a rest ih =>
    intro hne cur hpw hle
    obtain ⟨a1, a2⟩ := a
    cases rest with
    | nil =>
      simp only [List.getLast_singleton] at hle ⊢
      have hna : ¬ lvl < a2.hunterLevel := not_lt.mpr hle
      simp [checkTierAux, hna]
    | cons b rs =>
      rw [List.getLast_cons (by simp)] at hle ⊢
      have hlast : (b :: rs).getLast (by simp) ∈ b :: rs := List.getLast_mem _
      have haj : a2.hunterLevel < ((b :: rs).getLast (by simp)).2.hunterLevel :=
        (List.pairwise_cons.mp hpw).1 _ hlast
      have hna : ¬ lvl < a2.hunterLevel := not_lt.mpr (le_of_lt (lt_of_lt_of_le haj hle))
      simp only [checkTierAux, hna, if_neg, if_false]
      exact ih (by simp) a1 (List.pairwise_cons.mp hpw).2 hle

theorem checkTierAux_mid {lvl : ℤ} :
    ∀ (bh : TierTable) (cur : String) (i : ℕ) (hi1 : i + 1 < bh.length),
      bh.Pairwise (fun p q => p.2.hunterLevel < q.2.hunterLevel) →
      (bh.get ⟨i, Nat.lt_of_succ_lt hi1⟩).2.hunterLevel ≤ lvl →
      lvl < (bh.get ⟨i + 1, hi1⟩).2.hunterLevel →
      checkTierAux lvl cur bh =
        ((bh.get ⟨i, Nat.lt_of_succ_lt hi1⟩).1, some (bh.get ⟨i + 1, hi1⟩).1) := by
  intro bh
  induction bh with
  | nil => intro cur i hi1; simp at hi1
  | cons a rest ih =>
    intro cur i hi1 hpw hle hlt
    cases i with
    | zero =>
      cases rest with
      | nil => simp at hi1
      | cons b rs =>
        obtain ⟨a1, a2⟩ := a
        obtain ⟨b1, b2⟩ := b
        have hle2 : a2.hunterLevel ≤ lvl := hle
        have hlt2 : lvl < b2.hunterLevel := hlt
        have hna : ¬ lvl < a2.hunterLevel := not_lt.mpr hle2
        show checkTierAux lvl cur ((a1, a2) :: (b1, b2) :: rs) = (a1, some b1)
        simp [checkTierAux, hna, hlt2]
    | succ j =>
      have hj1 : j + 1 < rest.length := by
        simpa [List.length_cons, Nat.succ_lt_succ_iff] using hi1
      have hj : j < rest.length := Nat.lt_of_succ_lt hj1
      have hle2 : (rest.get ⟨j, hj⟩).2.hunterLevel ≤ lvl := hle
      have hlt2 : lvl < (rest.get ⟨j + 1, hj1⟩).2.hunterLevel := hlt
      have hmem : rest.get ⟨j, hj⟩ ∈ rest := List.get_mem rest j hj
      have haj : a.2.hunterLevel < (rest.get ⟨j, hj⟩).2.hunterLevel :=
        (List.pairwise_cons.mp hpw).1 _ hmem
      have hna : ¬ lvl < a.2.hunterLevel :=
        not_lt.mpr (le_of_lt (lt_of_lt_of_le haj hle2))
      show checkTierAux lvl cur (a :: rest) =
        ((rest.get ⟨j, hj⟩).1, some ((rest.get ⟨j + 1, hj1⟩).1))
      obtain ⟨a1, a2⟩ := a
      have hna2 : ¬ lvl < a2.hunterLevel := hna
      simp only [checkTierAux, hna2, if_neg, if_false]
      exact ih a1 j hj1 (List.pairwise_cons.mp hpw).2 hle2 hlt2

/-! ### The loop body: one iteration of the stepper -/

theorem ceil_mul_ge {a b : ℚ} (hb : 0 < b) : a ≤ (⌈a / b⌉ : ℚ) * b :=
  (div_le_iff₀ hb).mp (Int.le_ceil _)

/-- Anatomy of a successful loop iteration: the benchmark reached is the
threshold of a level `l` that lies strictly above the current level and at
most at the target, and the updated experience is at least that threshold;
`l` is the target itself unless the next tier's unlock level supplies it. -/
theorem loopBody_spec {levels : LevelTable} {bh : TierTable} {target : ℤ}
    {xp : ℚ} {s : ℚ × PlanStep}
    (hW : LevelsWF levels) (hN : (bh.map Prod.fst).Nodup)
    (hPos : ∀ p ∈ bh, 0 < p.2.hunterXP)
    (hcond : check_level levels xp < target)
    (hstep : loopBody levels bh target xp = some s) :
    ∃ l t, levelLookup levels l = some t ∧ check_level levels xp < l ∧
      l ≤ target ∧ t ≤ s.1 ∧
      (l = target ∨
        ∃ nt info, (check_birdhouse_tier (check_level levels xp) bh).2 = some nt ∧
          tierLookup bh nt = some info ∧ info.hunterLevel = l) := by
  have hstep2 := hstep
  simp only [loopBody] at hstep2
  cases hnb : nextBenchmark levels bh target
      (check_birdhouse_tier (check_level levels xp) bh).2 with
  | none =>
    rw [hnb] at hstep2
    exact absurd hstep2 (by simp)
  | some nb =>
    rw [hnb] at hstep2
    cases hti : tierLookup bh (check_birdhouse_tier (check_level levels xp) bh).1 with
    | none =>
      rw [hti] at hstep2
      exact absurd hstep2 (by simp)
    | some info =>
      rw [hti] at hstep2
      simp only [Option.some.injEq] at hstep2
      have hmemc := tierLookup_mem hti
      have hbxp : 0 < info.hunterXP * 4 := mul_pos (hPos _ hmemc) (by norm_num)
      have hge : nb ≤ s.1 := by
        rw [← hstep2]
        have h1 : nb - xp ≤ (⌈(nb - xp) / (info.hunterXP * 4)⌉ : ℚ) * (info.hunterXP * 4) :=
          ceil_mul_ge hbxp
        simp only
        linarith
      cases hct2 : (check_birdhouse_tier (check_level levels xp) bh).2 with
      | none =>
        rw [hct2] at hnb
        have hLt : levelLookup levels target = some nb := hnb
        exact ⟨target, nb, hLt, hcond, le_refl _, hge, Or.inl rfl⟩
      | some nt =>
        rw [hct2] at hnb
        cases hti2 : tierLookup bh nt with
        | none =>
          simp only [nextBenchmark, hti2] at hnb
          exact absurd hnb (by simp)
        | some info2 =>
          simp only [nextBenchmark, hti2] at hnb
          by_cases htarget : target < info2.hunterLevel
          · rw [if_pos htarget] at hnb
            exact ⟨target, nb, hnb, hcond, le_refl _, hge, Or.inl rfl⟩
          · rw [if_neg htarget] at hnb
            rcases checkTierAux_next_spec bh "None" hct2 with ⟨info3, hmem3, hlt3⟩
            have hti3 : tierLookup bh nt = some info3 := tierLookup_of_nodup hN hmem3
            have hinfo23 : info3 = info2 := by
              rw [hti3] at hti2
              injection hti2
            exact ⟨info2.hunterLevel, nb, hnb, hinfo23 ▸ hlt3, not_lt.mp htarget, hge,
              Or.inr ⟨nt, info2, rfl, hti2, rfl⟩⟩

/-- A successful iteration strictly increases the experience. -/
theorem loopBody_xp_lt {levels : LevelTable} {bh : TierTable} {target : ℤ}
    {xp : ℚ} {s : ℚ × PlanStep}
    (hW : LevelsWF levels) (hN : (bh.map Prod.fst).Nodup)
    (hPos : ∀ p ∈ bh, 0 < p.2.hunterXP)
    (hcond : check_level levels xp < target)
    (hstep : loopBody levels bh target xp = some s) :
    xp < s.1 := by
  rcases loopBody_spec hW hN hPos hcond hstep with ⟨l, t, hl, hlt, _, hts, _⟩
  by_contra hcon
  push_neg at hcon
  exact absurd (le_check_level levels hW l t xp hl (le_trans hts hcon)) (not_le.mpr hlt)

theorem loopBody_isSome {levels : LevelTable} {bh : TierTable} {target : ℤ}
    (hW : LevelsWF levels) (hN : (bh.map Prod.fst).Nodup)
    (hne : bh ≠ []) {t1 : ℚ}
    (hfirst : levelLookup levels (bh.head hne).2.hunterLevel = some t1)
    (htarget : (levelLookup levels target).isSome)
    (hunlocks : ∀ p ∈ bh, (levelLookup levels p.2.hunterLevel).isSome)
    {xp : ℚ} (hxp : t1 ≤ xp) :
    (loopBody levels bh target xp).isSome := by
  have hhead : (bh.head hne).2.hunterLevel ≤ check_level levels xp :=
    le_check_level levels hW _ t1 xp hfirst hxp
  have hcur : (tierLookup bh (check_birdhouse_tier (check_level levels xp) bh).1).isSome := by
    cases bh with
    | nil => exact absurd rfl hne
    | cons a rest =>
      exact tierLookup_isSome_of_mem (check_birdhouse_tier_fst_mem hhead)
  have hnb : (nextBenchmark levels bh target
      (check_birdhouse_tier (check_level levels xp) bh).2).isSome := by
    cases hct2 : (check_birdhouse_tier (check_level levels xp) bh).2 with
    | none => simpa [nextBenchmark] using htarget
    | some nt =>
      rcases checkTierAux_next_spec bh "None" hct2 with ⟨info3, hmem3, _⟩
      have hti3 : tierLookup bh nt = some info3 := tierLookup_of_nodup hN hmem3
      simp only [nextBenchmark, hti3]
      by_cases ht : target < info3.hunterLevel
      · rw [if_pos ht]; exact htarget
      · rw [if_neg ht]; exact hunlocks _ hmem3
  simp only [loopBody]
  obtain ⟨nb, hnb2⟩ := Option.isSome_iff_exists.mp hnb
  obtain ⟨ci, hci⟩ := Option.isSome_iff_exists.mp hcur
  rw [hnb2, hci]
  simp

/-! ### The iterated loop -/

theorem runLoop_succ (levels : LevelTable) (bh : TierTable) (target : ℤ) :
    ∀ (n : ℕ) (xp : ℚ),
      runLoop levels bh target (n + 1) xp =
        (runLoop levels bh target n xp).bind (fun y =>
          if check_level levels y < target then
            (loopBody levels bh target y).map Prod.fst
          else none) := by
  intro n
  induction n with
  | zero =>
    intro xp
    by_cases hc : check_level levels xp < target
    · cases hlb : loopBody levels bh target xp with
      | none => simp [runLoop, hc, hlb]
      | some s => simp [runLoop, hc, hlb]
    · simp [runLoop, hc]
  | succ m ih =>
    intro xp
    by_cases hc : check_level levels xp < target
    · cases hlb : loopBody levels bh target xp with
      | none =>
        have h1 : runLoop levels bh target (m + 1 + 1) xp = none := by
          simp [runLoop, hc, hlb]
        have h2 : runLoop levels bh target (m + 1) xp = none := by
          simp [runLoop, hc, hlb]
        rw [h1, h2]
        simp
      | some s =>
        have h1 : runLoop levels bh target (m + 1 + 1) xp =
            runLoop levels bh target (m + 1) s.1 := by
          simp [runLoop, hc, hlb]
        have h2 : runLoop levels bh target (m + 1) xp =
            runLoop levels bh target m s.1 := by
          simp [runLoop, hc, hlb]
        rw [h1, h2, ih s.1]
    · simp [runLoop, hc]

/-- Experience never drops below its starting point along the loop. -/
theorem runLoop_inv {levels : LevelTable} {bh : TierTable} {target : ℤ}
    (hW : LevelsWF levels) (hN : (bh.map Prod.fst).Nodup)
    (hPos : ∀ p ∈ bh, 0 < p.2.hunterXP) {t1 : ℚ} :
    ∀ (n : ℕ) (x y : ℚ), t1 ≤ x →
      runLoop levels bh target n x = some y → t1 ≤ y := by
  intro n
  induction n with
  | zero =>
    intro x y hx h
    simp only [runLoop, Option.some.injEq] at h
    rw [← h]
    exact hx
  | succ m ih =>
    intro x y hx h
    simp only [runLoop] at h
    by_cases hc : check_level levels x < target
    · rw [if_pos hc] at h
      cases hlb : loopBody levels bh target x with
      | none => rw [hlb] at h; simp at h
      | some s =>
        rw [hlb] at h
        have hlt : x < s.1 := loopBody_xp_lt hW hN hPos hc hlb
        exact ih s.1 y (le_trans hx (le_of_lt hlt)) h
    · rw [if_neg hc] at h
      simp at h

/-! ### The accumulated plan -/

theorem calcTripsAux_exit {levels : LevelTable} {bh : TierTable} {target : ℤ}
    {xp : ℚ} (acc : List PlanStep)
    (h : ¬ check_level levels xp < target) :
    ∀ fuel, calcTripsAux levels bh target fuel xp acc = some acc.reverse := by
  intro fuel
  cases fuel with
  | zero => simp [calcTripsAux, h]
  | succ f => simp [calcTripsAux, h]

theorem countP_lt_of_witness {α : Type} (p q : α → Bool) :
    ∀ (l : List α), (∀ x ∈ l, q x = true → p x = true) →
      ∀ a ∈ l, p a = true → q a = false → l.countP q < l.countP p := by
  intro l
  induction l with
  | nil => intro _ a ha; simp at ha
  | cons b rest ih =>
    intro himp a ha hpa hqa
    rw [List.countP_cons, List.countP_cons]
    rcases List.mem_cons.mp ha with ha | ha
    · have hmono : rest.countP q ≤ rest.countP p :=
        List.countP_mono_left (fun x hx => himp x (List.mem_cons_of_mem _ hx))
      rw [← ha, hpa, hqa]
      simp only [if_true, Bool.false_eq_true, if_false]
      omega
    · have hlt := ih (fun x hx => himp x (List.mem_cons_of_mem _ hx)) a ha hpa hqa
      have hif : (if q b then 1 else 0) ≤ (if p b then 1 else 0) := by
        by_cases hqb : q b = true
        · rw [if_pos hqb, if_pos (himp b (List.mem_cons_self _ _) hqb)]
        · rw [if_neg hqb]
          by_cases hpb : p b = true <;> simp [hpb]
      omega

/-- Main termination induction: fuel exceeding the number of tier unlocks
between the current level and the target covers every loop iteration. -/
theorem calcTripsAux_isSome {levels : LevelTable} {bh : TierTable} {target : ℤ}
    (hW : LevelsWF levels) (hN : (bh.map Prod.fst).Nodup)
    (hPos : ∀ p ∈ bh, 0 < p.2.hunterXP)
    (hne : bh ≠ []) {t1 : ℚ}
    (hfirst : levelLookup levels (bh.head hne).2.hunterLevel = some t1)
    (htarget : (levelLookup levels target).isSome)
    (hunlocks : ∀ p ∈ bh, (levelLookup levels p.2.hunterLevel).isSome) :
    ∀ (fuel : ℕ) (xp : ℚ) (acc : List PlanStep), t1 ≤ xp →
      tiersBetween bh (check_level levels xp) target + 1 ≤ fuel →
      (calcTripsAux levels bh target fuel xp acc).isSome := by
  intro fuel
  induction fuel with
  | zero => intro xp acc _ hf; omega
  | succ f ih =>
    intro xp acc hxp hf
    by_cases hc : check_level levels xp < target
    · have hlb := loopBody_isSome hW hN hne hfirst htarget hunlocks hxp
      obtain ⟨s, hs⟩ := Option.isSome_iff_exists.mp hlb
      have hunf : calcTripsAux levels bh target (f + 1) xp acc =
          calcTripsAux levels bh target f s.1 (s.2 :: acc) := by
        simp [calcTripsAux, hc, hs]
      rw [hunf]
      have hxp2 : t1 ≤ s.1 := le_trans hxp (le_of_lt (loopBody_xp_lt hW hN hPos hc hs))
      rcases loopBody_spec hW hN hPos hc hs with ⟨l, t, hl, hlgt, hlle, hts, hcase⟩
      have hlev2 : l ≤ check_level levels s.1 := le_check_level levels hW l t s.1 hl hts
      rcases hcase with hA | hB
      · subst hA
        rw [calcTripsAux_exit (s.2 :: acc) (not_lt.mpr hlev2) f]
        simp
      · rcases hB with ⟨nt, info, hct2, hti2, hlinfo⟩
        apply ih s.1 (s.2 :: acc) hxp2
        have hcount : tiersBetween bh (check_level levels s.1) target <
            tiersBetween bh (check_level levels xp) target := by
          unfold tiersBetween
          refine countP_lt_of_witness _ _ bh ?_ (nt, info) (tierLookup_mem hti2) ?_ ?_
          · intro x hx hqx
            simp only [Bool.and_eq_true, decide_eq_true_eq] at hqx ⊢
            exact ⟨lt_trans (lt_of_lt_of_le hlgt hlev2) hqx.1, hqx.2⟩
          · simp only [Bool.and_eq_true, decide_eq_true_eq]
            constructor
            · rw [hlinfo]; exact hlgt
            · rw [hlinfo]; exact hlle
          · have h1 : ¬ check_level levels s.1 < info.hunterLevel :=
              not_lt.mpr (by rw [hlinfo]; exact hlev2)
            simp [h1]
        omega
    · rw [calcTripsAux_exit acc hc (f + 1)]
      simp

/-! ### Claim theorems -/

/-- C1: in every iteration of the stepper loop of `calc_trips_to_target`,
the next experience benchmark is the target level's threshold experience
when there is no next tier or the next tier's unlock level exceeds the
target level, and otherwise it is the threshold experience of the next
tier's unlock level. -/
theorem nextBenchmark_correct (levels : LevelTable) (bh : TierTable)
    (target : ℤ) (xp : ℚ) :
    ((check_birdhouse_tier (check_level levels xp) bh).2 = none →
      nextBenchmark levels bh target
          (check_birdhouse_tier (check_level levels xp) bh).2 =
        levelLookup levels target) ∧
    (∀ (nt : String) (info : TierInfo),
      (check_birdhouse_tier (check_level levels xp) bh).2 = some nt →
      tierLookup bh nt = some info →
      ((target < info.hunterLevel →
        nextBenchmark levels bh target
            (check_birdhouse_tier (check_level levels xp) bh).2 =
          levelLookup levels target) ∧
       (info.hunterLevel ≤ target →
        nextBenchmark levels bh target
            (check_birdhouse_tier (check_level levels xp) bh).2 =
          levelLookup levels info.hunterLevel))) := by
  constructor
  · intro h
    rw [h]
    rfl
  · intro nt info hnt hti
    rw [hnt]
    constructor
    · intro hlt
      simp [nextBenchmark, hti, hlt]
    · intro hle
      simp [nextBenchmark, hti, not_lt.mpr hle]

theorem nextBenchmark_correct_witness :
    nextBenchmark sampleLevels sampleTiers 10
        (check_birdhouse_tier (check_level sampleLevels 400) sampleTiers).2 =
      levelLookup sampleLevels 9 :=
  ((nextBenchmark_correct sampleLevels sampleTiers 10 400).2 "Oak birdhouse"
      ⟨9, 420⟩ (by decide) (by decide)).2 (by decide)

/-- C2: for every experience value at or above the table's minimum
threshold, `check_level` returns the unique level whose threshold is ≤ the
experience while the next level's threshold is above it; at or beyond the
maximum tabulated threshold it returns the maximum tabulated level. -/
theorem check_level_correct {levels : LevelTable} (hW : LevelsWF levels)
    (hne : levels ≠ []) (x : ℚ) (hmin : (levels.head hne).2 ≤ x) :
    (∀ (l : ℤ) (tl tl1 : ℚ), levelLookup levels l = some tl →
      levelLookup levels (l + 1) = some tl1 → tl ≤ x → x < tl1 →
      check_level levels x = l) ∧
    ((levels.getLast hne).2 ≤ x → check_level levels x = maxKey levels) := by
  constructor
  · intro l tl tl1 h1 h2 hle hlt
    have ha := le_check_level levels hW l tl x h1 hle
    have hb := check_level_lt levels hW (l + 1) tl1 x h2 hlt
    omega
  · intro hlast
    exact check_level_eq_maxKey hW hne x hlast

theorem check_level_correct_witness : check_level sampleLevels 400 = 5 :=
  (check_level_correct
      (by norm_num [LevelsWF, sampleLevels, List.chain'_cons, List.chain'_singleton])
      (by decide) 400 (by decide)).1 5 388 512
    (by decide) (by decide) (by decide) (by decide)

/-- C3: `check_birdhouse_tier` returns the last tier (in unlock order) whose
unlock level is ≤ the given level paired with the first tier whose unlock
level exceeds it, with the `"None"` sentinel below all unlock thresholds and
the `none` sentinel at or beyond the last unlock threshold. -/
theorem check_birdhouse_tier_correct {bh : TierTable} (hS : TiersSorted bh)
    (hne : bh ≠ []) (lvl : ℤ) :
    (lvl < (bh.head hne).2.hunterLevel →
      check_birdhouse_tier lvl bh = ("None", some (bh.head hne).1)) ∧
    ((bh.getLast hne).2.hunterLevel ≤ lvl →
      check_birdhouse_tier lvl bh = ((bh.getLast hne).1, none)) ∧
    (∀ (i : ℕ) (hi1 : i + 1 < bh.length),
      (bh.get ⟨i, Nat.lt_of_succ_lt hi1⟩).2.hunterLevel ≤ lvl →
      lvl < (bh.get ⟨i + 1, hi1⟩).2.hunterLevel →
      check_birdhouse_tier lvl bh =
        ((bh.get ⟨i, Nat.lt_of_succ_lt hi1⟩).1, some (bh.get ⟨i + 1, hi1⟩).1)) := by
  refine ⟨?_, ?_, ?_⟩
  · intro h
    cases bh with
    | nil => exact absurd rfl hne
    | cons a rest => exact checkTierAux_head_lt "None" h
  · intro h
    exact checkTierAux_last bh hne "None" (tiersSorted_pairwise hS) h
  · intro i hi1 h1 h2
    exact checkTierAux_mid bh "None" i hi1 (tiersSorted_pairwise hS) h1 h2

theorem check_birdhouse_tier_correct_witness :
    check_birdhouse_tier 5 sampleTiers =
      ("Regular birdhouse", some "Oak birdhouse") :=
  ((check_birdhouse_tier_correct
      (by norm_num [TiersSorted, sampleTiers, List.chain'_cons, List.chain'_singleton])
      (by decide) 5).2.2) 0 (by decide) (by decide) (by decide)

/-- C4: for starting experience at or above the first tier's unlock
threshold and a tier table with positive yields, the `current_xp` values
across successive loop iterations of `calc_trips_to_target` are strictly
increasing. -/
theorem stepper_xp_strict_mono {levels : LevelTable} {bh : TierTable}
    {target : ℤ}
    (hW : LevelsWF levels) (hN : (bh.map Prod.fst).Nodup)
    (hPos : ∀ p ∈ bh, 0 < p.2.hunterXP)
    (hne : bh ≠ []) {t1 : ℚ}
    (hfirst : levelLookup levels (bh.head hne).2.hunterLevel = some t1)
    {xp0 : ℚ} (hxp0 : t1 ≤ xp0) :
    ∀ (n : ℕ) (x y : ℚ), runLoop levels bh target n xp0 = some x →
      runLoop levels bh target (n + 1) xp0 = some y → x < y := by
  intro n x y hn hn1
  rw [runLoop_succ, hn] at hn1
  simp only [Option.some_bind] at hn1
  by_cases hc : check_level levels x < target
  · rw [if_pos hc] at hn1
    cases hlb : loopBody levels bh target x with
    | none => rw [hlb] at hn1; simp at hn1
    | some s =>
      rw [hlb] at hn1
      simp only [Option.map_some', Option.some.injEq] at hn1
      rw [← hn1]
      exact loopBody_xp_lt hW hN hPos hc hlb
  · rw [if_neg hc] at hn1
    simp at hn1

theorem stepper_xp_strict_mono_witness : (400 : ℚ) < 1520 := by
  have hc : (⌈(569:ℚ)/1120⌉ : ℤ) = 1 := by
    rw [Int.ceil_eq_iff]
    norm_num
  have hO : tierLookup sampleTiers "Oak birdhouse" = some ⟨9, 420⟩ := by decide
  have hR : tierLookup sampleTiers "Regular birdhouse" = some ⟨5, 280⟩ := by decide
  have hct : check_birdhouse_tier 5 sampleTiers =
      ("Regular birdhouse", some "Oak birdhouse") := by decide
  have hf : format_logs "Regular birdhouse" 4 = ("Regular logs", 4) := by decide
  have h1 : runLoop sampleLevels sampleTiers 10 1 400 = some 1520 := by
    norm_num [runLoop, loopBody, check_level, checkLevelAux, nextBenchmark,
      levelLookup, maxKey, sampleLevels, List.find?, hc, hO, hR, hct, hf]
  exact @stepper_xp_strict_mono sampleLevels sampleTiers 10
    (by norm_num [LevelsWF, sampleLevels, List.chain'_cons, List.chain'_singleton])
    (by decide) (by decide) (by decide) 388 (by decide) 400 (by decide)
    0 400 1520 rfl h1

/-- C5: for valid input (starting experience at or above the first unlock
threshold and below the target threshold, positive yields),
`calc_trips_to_target` terminates within a number of iterations bounded by
the number of tiers whose unlock level lies between the starting level and
the target level, plus one. -/
theorem calc_trips_to_target_terminates {levels : LevelTable} {bh : TierTable}
    {target : ℤ}
    (hW : LevelsWF levels) (hN : (bh.map Prod.fst).Nodup)
    (hPos : ∀ p ∈ bh, 0 < p.2.hunterXP)
    (hne : bh ≠ []) {t1 tt : ℚ}
    (hfirst : levelLookup levels (bh.head hne).2.hunterLevel = some t1)
    (htarget : levelLookup levels target = some tt)
    (hunlocks : ∀ p ∈ bh, (levelLookup levels p.2.hunterLevel).isSome)
    {xp : ℚ} (hxp : t1 ≤ xp) (hlt : xp < tt) :
    (calc_trips_to_target levels bh xp target
      (tiersBetween bh (check_level levels xp) target + 1)).isSome := by
  unfold calc_trips_to_target
  exact calcTripsAux_isSome hW hN hPos hne hfirst (by rw [htarget]; rfl)
    hunlocks _ xp [] hxp (le_refl _)

theorem calc_trips_to_target_terminates_witness :
    (calc_trips_to_target sampleLevels sampleTiers 400 10
      (tiersBetween sampleTiers (check_level sampleLevels 400) 10 + 1)).isSome :=
  @calc_trips_to_target_terminates sampleLevels sampleTiers 10
    (by norm_num [LevelsWF, sampleLevels, List.chain'_cons, List.chain'_singleton])
    (by decide) (by decide) (by decide) 388 1154 (by decide) (by decide)
    (by decide) 400 (by decide) (by decide)

/-- C6: the effective tier table scales exactly the experience-yield field
of every tier by the multiplier, leaving the unlock level unchanged, and
with no special mode selected the effective table is the base table. -/
theorem effectiveTable_correct (base : TierTable) (mult : ℚ) :
    (∀ (name : String) (info : TierInfo),
      tierLookup (effectiveTable base mult) name = some info ↔
      ∃ b, tierLookup base name = some b ∧ info.hunterLevel = b.hunterLevel ∧
        info.hunterXP = b.hunterXP * mult) ∧
    selectBirdhouses base false mult = base := by
  constructor
  · intro name info
    induction base with
    | nil => simp [effectiveTable, tierLookup]
    | cons a rest ih =>
      by_cases han : a.1 = name
      · constructor
        · intro h
          unfold effectiveTable tierLookup at h
          rw [List.map_cons, List.find?_cons_of_pos _ (by simp [han])] at h
          simp only [Option.map_some', Option.some.injEq] at h
          refine ⟨a.2, ?_, ?_, ?_⟩
          · unfold tierLookup
            rw [List.find?_cons_of_pos _ (by simp [han])]
            rfl
          · rw [← h]
          · rw [← h]
        · rintro ⟨b, hb, h1, h2⟩
          unfold tierLookup at hb
          rw [List.find?_cons_of_pos _ (by simp [han])] at hb
          simp only [Option.map_some', Option.some.injEq] at hb
          unfold effectiveTable tierLookup
          rw [List.map_cons, List.find?_cons_of_pos _ (by simp [han])]
          simp only [Option.map_some', Option.some.injEq]
          obtain ⟨il, ix⟩ := info
          simp only at h1 h2
          rw [← hb] at h1 h2
          simp [h1, h2]
      · have hL : tierLookup (effectiveTable (a :: rest) mult) name =
            tierLookup (effectiveTable rest mult) name := by
          unfold effectiveTable tierLookup
          rw [List.map_cons, List.find?_cons_of_neg _ (by simp [han])]
        have hR : tierLookup (a :: rest) name = tierLookup rest name := by
          unfold tierLookup
          rw [List.find?_cons_of_neg _ (by simp [han])]
        rw [hL, hR]
        exact ih
  · simp [selectBirdhouses]

theorem effectiveTable_correct_witness :
    ∃ b, tierLookup sampleTiers "Regular birdhouse" = some b ∧
      (⟨5, 1400⟩ : TierInfo).hunterLevel = b.hunterLevel ∧
      (⟨5, 1400⟩ : TierInfo).hunterXP = b.hunterXP * 5 := by
  refine ((effectiveTable_correct sampleTiers 5).1 "Regular birdhouse" ⟨5, 1400⟩).mp ?_
  have h1 : effectiveTable sampleTiers 5 =
      [("Regular birdhouse", ⟨5, 1400⟩), ("Oak birdhouse", ⟨9, 2100⟩)] := by
    norm_num [effectiveTable, sampleTiers]
  rw [h1]
  decide

/-- C7 counterexample: with current experience exactly equal to the target
level's threshold, `get_inputs` accepts the pair instead of aborting with
the no-input sentinel, refuting the claim's "meets or exceeds". -/
theorem get_inputs_equality_counterexample :
    levelLookup exampleLevels 10 = some 1154 ∧
    get_inputs exampleLevels 1154 10 = InputResult.ok 1154 10 ∧
    get_inputs exampleLevels 1154 10 ≠ InputResult.noInput := by decide

/-- C7 (amended): when the parsed current experience strictly exceeds the
target level's threshold (and passes the minimum-experience check),
`get_inputs` reports the user-facing message and aborts by returning the
no-input sentinel, and no plan is computed in `main`. -/
theorem get_inputs_aborts_when_past_target {levels : LevelTable}
    {experience target_level : ℤ} {t5 tt : ℚ}
    (h5 : levelLookup levels 5 = some t5) (hmin : ¬ ((experience : ℚ) < t5))
    (ht : levelLookup levels target_level = some tt)
    (hgt : tt < (experience : ℚ)) (bh : TierTable) (fuel : ℕ) :
    get_inputs levels experience target_level = InputResult.noInput ∧
    main_plan levels bh (get_inputs levels experience target_level) fuel = none := by
  have hg : get_inputs levels experience target_level = InputResult.noInput := by
    unfold get_inputs
    simp only [h5, ht]
    rw [if_neg hmin, if_pos hgt]
  refine ⟨hg, ?_⟩
  rw [hg]
  rfl

theorem get_inputs_aborts_when_past_target_witness :
    get_inputs exampleLevels 1200 10 = InputResult.noInput ∧
    main_plan exampleLevels exampleTiers (get_inputs exampleLevels 1200 10) 1 = none :=
  @get_inputs_aborts_when_past_target exampleLevels 1200 10 388 1154
    (by decide) (by decide) (by decide) (by decide) exampleTiers 1

/-- C8: on the spec's end-to-end example (thresholds 388 at level 5 and
1154 at level 10, tier "Regular birdhouse" unlocked at 5 with yield 280,
start 400, target 10) the stepper computes one trip, emits the single plan
step `("Regular logs", 4)`, reaches experience 1520, and exits after one
iteration. -/
theorem end_to_end_example :
    (⌈((1154 : ℚ) - 400) / (280 * 4)⌉ : ℤ) = 1 ∧
    calc_trips_to_target exampleLevels exampleTiers 400 10 1 =
      some [("Regular logs", 4)] ∧
    runLoop exampleLevels exampleTiers 10 1 400 = some 1520 ∧
    ¬ check_level exampleLevels 1520 < 10 := by
  have hc : (⌈(377:ℚ)/560⌉ : ℤ) = 1 := by
    rw [Int.ceil_eq_iff]
    norm_num
  have hf : format_logs "Regular birdhouse" 4 = ("Regular logs", 4) := by decide
  refine ⟨by norm_num [hc], ?_, ?_, by decide⟩
  · norm_num [calc_trips_to_target, calcTripsAux, loopBody, check_birdhouse_tier,
      checkTierAux, check_level, checkLevelAux, nextBenchmark, tierLookup,
      levelLookup, maxKey, exampleLevels, exampleTiers, hc, hf]
  · norm_num [runLoop, loopBody, check_birdhouse_tier, checkTierAux, check_level,
      checkLevelAux, nextBenchmark, tierLookup, levelLookup, format_logs, maxKey,
      exampleLevels, exampleTiers, hc]

/-- C9: when the starting experience already meets the target level's
threshold, `calc_trips_to_target` returns the empty plan without entering
the loop. -/
theorem calc_already_reached {levels : LevelTable} (hW : LevelsWF levels)
    {target : ℤ} {tt : ℚ} (ht : levelLookup levels target = some tt)
    {xp : ℚ} (hxp : tt ≤ xp) (bh : TierTable) (fuel : ℕ) :
    calc_trips_to_target levels bh xp target fuel = some [] ∧
    runLoop levels bh target 1 xp = none := by
  have hc : ¬ check_level levels xp < target :=
    not_lt.mpr (le_check_level levels hW target tt xp ht hxp)
  refine ⟨?_, ?_⟩
  · unfold calc_trips_to_target
    have h := @calcTripsAux_exit levels bh target xp [] hc fuel
    simpa using h
  · simp [runLoop, hc]

theorem calc_already_reached_witness :
    calc_trips_to_target sampleLevels sampleTiers 1200 10 3 = some [] ∧
    runLoop sampleLevels sampleTiers 10 1 1200 = none :=
  @calc_already_reached sampleLevels
    (by norm_num [LevelsWF, sampleLevels, List.chain'_cons, List.chain'_singleton])
    10 1154 (by decide) 1200 (by decide) sampleTiers 3

/-- C10: starting at or above the first tier's unlock threshold, at every
state the loop can reach, the current tier returned by
`check_birdhouse_tier` is an actual key of the tier table, so the
`birdhouses[current_tier]` subscriptions in the loop and in
`calc_trips_to_next_benchmark` cannot raise `KeyError`. -/
theorem loop_tier_lookups_safe {levels : LevelTable} {bh : TierTable}
    {target : ℤ}
    (hW : LevelsWF levels) (hN : (bh.map Prod.fst).Nodup)
    (hPos : ∀ p ∈ bh, 0 < p.2.hunterXP)
    (hne : bh ≠ []) {t1 : ℚ}
    (hfirst : levelLookup levels (bh.head hne).2.hunterLevel = some t1)
    (htarget : (levelLookup levels target).isSome)
    {xp0 : ℚ} (hxp0 : t1 ≤ xp0) :
    ∀ (n : ℕ) (xp : ℚ), runLoop levels bh target n xp0 = some xp →
      (tierLookup bh (check_birdhouse_tier (check_level levels xp) bh).1).isSome ∧
      (calc_trips_to_next_benchmark levels bh xp target).isSome := by
  intro n xp hn
  have hxp : t1 ≤ xp := runLoop_inv hW hN hPos n xp0 xp hxp0 hn
  have hhead : (bh.head hne).2.hunterLevel ≤ check_level levels xp :=
    le_check_level levels hW _ t1 xp hfirst hxp
  have hcur : (tierLookup bh
      (check_birdhouse_tier (check_level levels xp) bh).1).isSome := by
    cases bh with
    | nil => exact absurd rfl hne
    | cons a rest => exact tierLookup_isSome_of_mem (check_birdhouse_tier_fst_mem hhead)
  refine ⟨hcur, ?_⟩
  obtain ⟨tt, htt⟩ := Option.isSome_iff_exists.mp htarget
  obtain ⟨ci, hci⟩ := Option.isSome_iff_exists.mp hcur
  simp [calc_trips_to_next_benchmark, htt, hci]

theorem loop_tier_lookups_safe_witness :
    (tierLookup sampleTiers
      (check_birdhouse_tier (check_level sampleLevels 400) sampleTiers).1).isSome ∧
    (calc_trips_to_next_benchmark sampleLevels sampleTiers 400 10).isSome :=
  @loop_tier_lookups_safe sampleLevels sampleTiers 10
    (by norm_num [LevelsWF, sampleLevels, List.chain'_cons, List.chain'_singleton])
    (by decide) (by decide) (by decide) 388 (by decide) (by decide)
    400 (by decide) 0 400 rfl

